import Mathlib

/-!
# CasperOptions — verification of the on-chain option registry

This development embeds the CasperOptions option registry (the on-chain
Casper contract `option-registry`, entry points `create_option` and
`exercise_option`) and the client-side premium calculation, and proves the
specified properties about them.

The contract's Rust source (`contracts/option-registry/src/main.rs`) is not
present in the repository checkout; only its README (storage-key table,
entry-point table, test requirements) and the call scripts are.  The
registry definitions below are therefore modelled from the specification's
description of the contract; every such definition carries a doc comment
beginning `Modelled from the spec:`.  The premium calculation is translated
directly from `src/frontend/src/features/options/utils/calculations.ts` and
`src/frontend/src/features/options/constants/config.ts`.
-/

namespace CasperOptions

/-- Modelled from the spec: the five fields persisted per option by
`create_option` (missing source: `contracts/option-registry/src/main.rs`).
`id` is the caller-supplied u64, `creator` the account hash derived from
the transaction signer (modelled as an opaque natural number), `strike`
the u256 strike price, `expiry` the u64 Unix timestamp, and `exercised`
the one-way exercise flag. -/
structure OptionRecord where
  id : Nat
  creator : Nat
  strike : Nat
  expiry : Nat
  exercised : Bool
deriving DecidableEq

/-- Modelled from the spec: the registry's persistent state — a mapping
from option id to its stored record (the flat `option_...` key families,
see the storage-key section below) plus the global `option_count` counter.
The mapping is represented as an association list in which the first
occurrence of a key is the binding in force. -/
structure RegistryState where
  options : List (Nat × OptionRecord)
  optionCount : Nat
deriving DecidableEq

/-- Modelled from the spec: the error conditions of the two entry points
(`DuplicateOption` for creation at an existing id, `OptionNotFound` for
exercising a missing id). -/
inductive RegError where
  | DuplicateOption
  | OptionNotFound
deriving DecidableEq

/-- Look up the record stored at an id (first matching binding). -/
def findRecord (id : Nat) : List (Nat × OptionRecord) → Option OptionRecord
  | [] => none
  | (k, r) :: rest => if k = id then some r else findRecord id rest

/-- Modelled from the spec: `create_option(id, strike_price, expiry)` —
fails with `DuplicateOption` when a record already exists at `id`;
otherwise persists the record (id, caller, strike, expiry, exercised=false)
and increments `option_count` by one, atomically. -/
def create_option (caller id strike expiry : Nat) (s : RegistryState) :
    Except RegError RegistryState :=
  match findRecord id s.options with
  | some _ => .error .DuplicateOption
  | none =>
      .ok { options := (id, ⟨id, caller, strike, expiry, false⟩) :: s.options,
            optionCount := s.optionCount + 1 }

/-- Set the `exercised` flag of the binding at `id` to `true`,
leaving every other stored field and every other binding unchanged. -/
def setExercised (id : Nat) : List (Nat × OptionRecord) → List (Nat × OptionRecord)
  | [] => []
  | (k, r) :: rest =>
      if k = id then (k, { r with exercised := true }) :: rest
      else (k, r) :: setExercised id rest

/-- The execution context an entry point runs in: the ledger's current
block time and whatever market price an oracle could offer.  The registry
is given access to it so that independence from it can be stated. -/
structure ExecEnv where
  blockTime : Nat
  marketPrice : Nat
deriving DecidableEq

/-- Modelled from the spec: `exercise_option(id)` — fails with
`OptionNotFound` when no record exists at `id`; otherwise sets
`exercised` to `true` (a no-op if it already is) and succeeds.  No expiry,
strike-price or market-price comparison is performed: the context `env`
is not consulted. -/
def exercise_option (env : ExecEnv) (id : Nat) (s : RegistryState) :
    Except RegError RegistryState :=
  match findRecord id s.options with
  | none => .error .OptionNotFound
  | some _ => .ok { s with options := setExercised id s.options }

/-- An invocation of one of the registry's two entry points. -/
inductive RegOp where
  | create (caller id strike expiry : Nat)
  | exercise (env : ExecEnv) (id : Nat)

/-- Modelled from the spec: ledger transaction semantics — a failed
invocation aborts and leaves every stored key unchanged; a successful one
commits its new state atomically. -/
def applyOp (s : RegistryState) : RegOp → RegistryState
  | .create c i k e =>
      match create_option c i k e s with
      | .ok s' => s'
      | .error _ => s
  | .exercise env i =>
      match exercise_option env i s with
      | .ok s' => s'
      | .error _ => s

/-- Run a sequence of entry-point invocations from a starting state. -/
def runOps (s : RegistryState) (ops : List RegOp) : RegistryState :=
  ops.foldl applyOp s

/-- Number of `create` invocations in a sequence. -/
def numCreates : List RegOp → Nat
  | [] => 0
  | RegOp.create _ _ _ _ :: rest => numCreates rest + 1
  | RegOp.exercise _ _ :: rest => numCreates rest

/-- Whether every `create` invocation in the sequence succeeds at the
state it is applied to (exercise invocations may succeed or fail). -/
def createsOk : RegistryState → List RegOp → Bool
  | _, [] => true
  | s, op :: rest =>
      (match op with
       | RegOp.create c i k e =>
           match create_option c i k e s with
           | .ok _ => true
           | .error _ => false
       | RegOp.exercise _ _ => true) && createsOk (applyOp s op) rest

/-! ## Storage keys

Modelled from the spec: the contract persists its fields under flat string
keys `option_<id>`, `option_<id>_creator`, `option_<id>_strike`,
`option_<id>_expiry`, `option_<id>_exercised` and `option_count`, where
`<id>` is the decimal rendering of the u64 id. -/

/-- Little-endian decimal digits of a natural number, fuel-indexed so the
recursion is structural; `decDigits` supplies sufficient fuel. -/
def decDigitsCore : Nat → Nat → List Nat
  | 0, _ => []
  | fuel + 1, n => if n < 10 then [n] else n % 10 :: decDigitsCore fuel (n / 10)

/-- Little-endian decimal digits of `n` (`[0]` for `n = 0`). -/
def decDigits (n : Nat) : List Nat := decDigitsCore (n + 1) n

/-- Numeric value of a little-endian digit list. -/
def decVal : List Nat → Nat
  | [] => 0
  | d :: ds => d + 10 * decVal ds

/-- Characters of the decimal rendering of `n`, most significant first. -/
def decChars (n : Nat) : List Char := ((decDigits n).reverse).map Nat.digitChar

/-- Modelled from the spec: the decimal rendering of an option id as used
inside the storage-key patterns (missing source:
`contracts/option-registry/src/main.rs`). -/
def decRepr (n : Nat) : String := ⟨decChars n⟩

/-- Whether a character is a decimal digit (code 48–57). -/
def isDigitCh (c : Char) : Bool := 48 ≤ c.toNat && c.toNat ≤ 57

/-- Whether a character list is empty or begins with an underscore — true
of each storage-key suffix appended after the rendered id. -/
def underscoreHeaded : List Char → Bool
  | [] => true
  | c :: _ => c == '_'

/-- Modelled from the spec: the existence-marker key `option_<id>`. -/
def optionKey (id : Nat) : String := "option_" ++ decRepr id

/-- Modelled from the spec: the key `option_<id>_creator`. -/
def optionCreatorKey (id : Nat) : String := "option_" ++ decRepr id ++ "_creator"

/-- Modelled from the spec: the key `option_<id>_strike`. -/
def optionStrikeKey (id : Nat) : String := "option_" ++ decRepr id ++ "_strike"

/-- Modelled from the spec: the key `option_<id>_expiry`. -/
def optionExpiryKey (id : Nat) : String := "option_" ++ decRepr id ++ "_expiry"

/-- Modelled from the spec: the key `option_<id>_exercised`. -/
def optionExercisedKey (id : Nat) : String := "option_" ++ decRepr id ++ "_exercised"

/-- Modelled from the spec: the global counter key `option_count`. -/
def optionCountKey : String := "option_count"

/-- The five storage keys derived from an option id. -/
def optionKeys (id : Nat) : List String :=
  [optionKey id, optionCreatorKey id, optionStrikeKey id,
   optionExpiryKey id, optionExercisedKey id]

/-! ## Client-side premium calculation

Translated from `src/frontend/src/features/options/utils/calculations.ts`
and `src/frontend/src/features/options/constants/config.ts`; JavaScript
numbers are modelled as rationals. -/

/-- Premium percentage of strike price (5 percent), from `config.ts`. -/
def PREMIUM_PERCENTAGE : ℚ := 5 / 100

/-- Minimum premium in CSPR (0.01), from `config.ts`. -/
def MIN_PREMIUM : ℚ := 1 / 100

/-- `calculatePremium` from `calculations.ts`:
premium is 5 percent of the strike price, floored at the minimum. -/
def calculatePremium (strikePrice : ℚ) : ℚ :=
  max (strikePrice * PREMIUM_PERCENTAGE) MIN_PREMIUM

/-- The fields of the client-side `Option` object relevant to premium
attachment, from `types/options.ts`. -/
structure ClientOption where
  id : Nat
  strikePrice : ℚ
  expiry : Nat
  premium : ℚ
  amount : ℚ
  creator : Nat
  owner : Option Nat
  exercised : Bool

/-- The new-option object built by `createOption` in `store.ts`
(lines 389–401): its premium is `calculatePremium` of the strike price. -/
def newClientOption (id : Nat) (strikePrice : ℚ) (expiry : Nat) (amount : ℚ)
    (creator : Nat) : ClientOption :=
  { id := id, strikePrice := strikePrice, expiry := expiry,
    premium := calculatePremium strikePrice, amount := amount,
    creator := creator, owner := none, exercised := false }

/-! ## Lemmas about the stored map -/

theorem findRecord_cons_self (id : Nat) (r : OptionRecord)
    (l : List (Nat × OptionRecord)) : findRecord id ((id, r) :: l) = some r := by
  simp [findRecord]

theorem findRecord_cons_ne (j id : Nat) (r : OptionRecord)
    (l : List (Nat × OptionRecord)) (h : id ≠ j) :
    findRecord j ((id, r) :: l) = findRecord j l := by
  simp [findRecord, h]

theorem setExercised_of_exercised (id : Nat) :
    ∀ (l : List (Nat × OptionRecord)) (r : OptionRecord),
      findRecord id l = some r → r.exercised = true → setExercised id l = l := by
  intro l
  induction l with
  | nil => intro r h _; simp [findRecord] at h
  | cons p rest ih =>
    intro r h hex
    obtain ⟨k, q⟩ := p
    by_cases hk : k = id
    · subst hk
      simp [findRecord] at h
      subst h
      cases q
      simp_all [setExercised]
    · simp [findRecord, hk] at h
      simp [setExercised, hk, ih r h hex]

theorem findRecord_setExercised_self (id : Nat) :
    ∀ (l : List (Nat × OptionRecord)) (r : OptionRecord),
      findRecord id l = some r →
      findRecord id (setExercised id l) = some { r with exercised := true } := by
  intro l
  induction l with
  | nil => intro r h; simp [findRecord] at h
  | cons p rest ih =>
    intro r h
    obtain ⟨k, q⟩ := p
    by_cases hk : k = id
    · subst hk
      simp [findRecord] at h
      subst h
      simp [setExercised, findRecord]
    · simp [findRecord, hk] at h
      simp [setExercised, findRecord, hk, ih r h]

theorem findRecord_setExercised_ne (j id : Nat) (hj : j ≠ id) :
    ∀ l : List (Nat × OptionRecord),
      findRecord j (setExercised id l) = findRecord j l := by
  intro l
  induction l with
  | nil => simp [setExercised]
  | cons p rest ih =>
    obtain ⟨k, q⟩ := p
    by_cases hk : k = id
    · subst hk
      have hkj : ¬(k = j) := fun h => hj h.symm
      simp [setExercised, findRecord, hkj]
    · simp only [setExercised, if_neg hk]
      by_cases hkj : k = j
      · subst hkj; simp [findRecord]
      · simp [findRecord, hkj, ih]

/-! ## Claim theorems: the two entry points -/

/-- C1.  Exercise is idempotent as a no-op success: when the record at
`id` exists and its `exercised` flag is already `true`, a further call to
`exercise_option id` succeeds and returns the state completely unchanged —
`exercised` stays `true`, and neither `option_count` nor any other stored
field moves. -/
theorem exercise_idempotent_noop (env : ExecEnv) (id : Nat)
    (s : RegistryState) (r : OptionRecord)
    (hfind : findRecord id s.options = some r) (hex : r.exercised = true) :
    exercise_option env id s = Except.ok s := by
  simp [exercise_option, hfind, setExercised_of_exercised id s.options r hfind hex]

/-- Witness for C1 at a concrete already-exercised option. -/
theorem exercise_idempotent_noop_witness :
    exercise_option ⟨0, 0⟩ 1 ⟨[(1, ⟨1, 7, 100, 50, true⟩)], 3⟩ =
      Except.ok ⟨[(1, ⟨1, 7, 100, 50, true⟩)], 3⟩ :=
  exercise_idempotent_noop ⟨0, 0⟩ 1 _ ⟨1, 7, 100, 50, true⟩ rfl rfl

/-- C2.  Duplicate creation is rejected atomically: after a first
successful `create_option` at a fresh id, a second `create_option` at the
same id (any caller and arguments) fails with `DuplicateOption`, the
failed transaction leaves the state unchanged, and the record at the id
still holds exactly the fields set by the first call. -/
theorem create_duplicate_rejected (c1 k1 e1 c2 k2 e2 id : Nat)
    (s s1 : RegistryState) (hfresh : findRecord id s.options = none)
    (h1 : create_option c1 id k1 e1 s = Except.ok s1) :
    create_option c2 id k2 e2 s1 = Except.error RegError.DuplicateOption ∧
    applyOp s1 (RegOp.create c2 id k2 e2) = s1 ∧
    findRecord id s1.options = some ⟨id, c1, k1, e1, false⟩ := by
  simp [create_option, hfresh] at h1
  subst h1
  refine ⟨?_, ?_, ?_⟩
  · simp [create_option, findRecord_cons_self]
  · simp [applyOp, create_option, findRecord_cons_self]
  · exact findRecord_cons_self id _ s.options

/-- Witness for C2: create id 9 twice from the empty registry. -/
theorem create_duplicate_rejected_witness :
    create_option 4 9 55 66 ⟨[(9, ⟨9, 2, 10, 20, false⟩)], 1⟩ =
      Except.error RegError.DuplicateOption ∧
    applyOp ⟨[(9, ⟨9, 2, 10, 20, false⟩)], 1⟩ (RegOp.create 4 9 55 66) =
      ⟨[(9, ⟨9, 2, 10, 20, false⟩)], 1⟩ ∧
    findRecord 9 (RegistryState.options ⟨[(9, ⟨9, 2, 10, 20, false⟩)], 1⟩) =
      some ⟨9, 2, 10, 20, false⟩ :=
  create_duplicate_rejected 2 10 20 4 55 66 9 ⟨[], 0⟩ _ rfl rfl

/-- C3.  Not-found rejection: exercising an id with no stored record
fails with `OptionNotFound`, and the failed transaction leaves the state
(hence the set of stored keys) unchanged. -/
theorem exercise_not_found (env : ExecEnv) (id : Nat) (s : RegistryState)
    (hfresh : findRecord id s.options = none) :
    exercise_option env id s = Except.error RegError.OptionNotFound ∧
    applyOp s (RegOp.exercise env id) = s := by
  constructor
  · simp [exercise_option, hfresh]
  · simp [applyOp, exercise_option, hfresh]

/-- Witness for C3 at a concrete never-created id. -/
theorem exercise_not_found_witness :
    exercise_option ⟨0, 0⟩ 999 ⟨[(1, ⟨1, 7, 100, 50, false⟩)], 3⟩ =
      Except.error RegError.OptionNotFound ∧
    applyOp ⟨[(1, ⟨1, 7, 100, 50, false⟩)], 3⟩ (RegOp.exercise ⟨0, 0⟩ 999) =
      ⟨[(1, ⟨1, 7, 100, 50, false⟩)], 3⟩ :=
  exercise_not_found ⟨0, 0⟩ 999 _ rfl

/-- C4.  No expiry or moneyness gating: the outcome of `exercise_option`
is identical under any two execution contexts (block time, market price),
and on any existing record — whatever its stored expiry and strike — the
call succeeds, merely setting the `exercised` flag. -/
theorem exercise_no_gating (env env' : ExecEnv) (id : Nat)
    (s : RegistryState) (r : OptionRecord)
    (hfind : findRecord id s.options = some r) :
    exercise_option env id s = exercise_option env' id s ∧
    exercise_option env id s =
      Except.ok { s with options := setExercised id s.options } := by
  constructor
  · rfl
  · simp [exercise_option, hfind]

/-- Witness for C4: an option whose expiry (50) is before the block time
(1000) and whose strike (100) is above the market price (5) — past-expiry
and out-of-the-money — is still exercised successfully. -/
theorem exercise_no_gating_witness :
    (50 : Nat) < 1000 ∧ (5 : Nat) < 100 ∧
    exercise_option ⟨1000, 5⟩ 1 ⟨[(1, ⟨1, 7, 100, 50, false⟩)], 3⟩ =
      Except.ok ⟨[(1, ⟨1, 7, 100, 50, true⟩)], 3⟩ :=
  ⟨by decide, by decide,
    (exercise_no_gating ⟨1000, 5⟩ ⟨0, 0⟩ 1 ⟨[(1, ⟨1, 7, 100, 50, false⟩)], 3⟩
      ⟨1, 7, 100, 50, false⟩ rfl).2⟩

/-- C5.  The option id is caller-supplied: a successful `create_option`
stores under the requested id a record whose `id` field is exactly the
caller's argument, and the stored bindings are identical whatever the
prior value of the creation counter (`n` versus `n'`) — the id is not
derived from `option_count`. -/
theorem create_id_caller_supplied (c id k e : Nat)
    (l : List (Nat × OptionRecord)) (n n' : Nat)
    (hfresh : findRecord id l = none) :
    ∃ s1 s1' : RegistryState,
      create_option c id k e ⟨l, n⟩ = Except.ok s1 ∧
      create_option c id k e ⟨l, n'⟩ = Except.ok s1' ∧
      findRecord id s1.options = some ⟨id, c, k, e, false⟩ ∧
      (⟨id, c, k, e, false⟩ : OptionRecord).id = id ∧
      s1.options = s1'.options := by
  refine ⟨⟨(id, ⟨id, c, k, e, false⟩) :: l, n + 1⟩,
    ⟨(id, ⟨id, c, k, e, false⟩) :: l, n' + 1⟩, ?_, ?_, ?_, rfl, rfl⟩
  · simp [create_option, hfresh]
  · simp [create_option, hfresh]
  · exact findRecord_cons_self id _ l

/-- Witness for C5: creating id 42 over two registries that differ only
in their counter (0 versus 77) stores the same record, keyed 42. -/
theorem create_id_caller_supplied_witness :
    ∃ s1 s1' : RegistryState,
      create_option 3 42 500 600 ⟨[], 0⟩ = Except.ok s1 ∧
      create_option 3 42 500 600 ⟨[], 77⟩ = Except.ok s1' ∧
      findRecord 42 s1.options = some ⟨42, 3, 500, 600, false⟩ ∧
      (⟨42, 3, 500, 600, false⟩ : OptionRecord).id = 42 ∧
      s1.options = s1'.options :=
  create_id_caller_supplied 3 42 500 600 [] 0 77 rfl

/-- C6.  Creation persistence: on a fresh id, `create_option` succeeds and
the record stored at the id holds exactly (id, caller, strike_price,
expiry, exercised = false); every other id's binding is untouched. -/
theorem create_persists_fields (c id k e : Nat) (s : RegistryState)
    (hfresh : findRecord id s.options = none) :
    ∃ s1, create_option c id k e s = Except.ok s1 ∧
      findRecord id s1.options = some ⟨id, c, k, e, false⟩ ∧
      ∀ j, j ≠ id → findRecord j s1.options = findRecord j s.options := by
  refine ⟨⟨(id, ⟨id, c, k, e, false⟩) :: s.options, s.optionCount + 1⟩, ?_, ?_, ?_⟩
  · simp [create_option, hfresh]
  · exact findRecord_cons_self id _ s.options
  · intro j hj
    exact findRecord_cons_ne j id _ s.options (fun h => hj h.symm)

/-- Witness for C6 at concrete arguments. -/
theorem create_persists_fields_witness :
    ∃ s1, create_option 8 1 1000000 1735689600 ⟨[(2, ⟨2, 9, 5, 6, true⟩)], 4⟩ =
        Except.ok s1 ∧
      findRecord 1 s1.options = some ⟨1, 8, 1000000, 1735689600, false⟩ ∧
      ∀ j, j ≠ 1 →
        findRecord j s1.options =
          findRecord j (RegistryState.options ⟨[(2, ⟨2, 9, 5, 6, true⟩)], 4⟩) :=
  create_persists_fields 8 1 1000000 1735689600 ⟨[(2, ⟨2, 9, 5, 6, true⟩)], 4⟩ rfl

/-! ## Lemmas about operation sequences -/

theorem runOps_nil (s : RegistryState) : runOps s [] = s := rfl

theorem runOps_cons (s : RegistryState) (op : RegOp) (ops : List RegOp) :
    runOps s (op :: ops) = runOps (applyOp s op) ops := rfl

theorem create_ok_count (c i k e : Nat) (s s1 : RegistryState)
    (h : create_option c i k e s = Except.ok s1) :
    s1.optionCount = s.optionCount + 1 := by
  unfold create_option at h
  cases hf : findRecord i s.options with
  | some r => rw [hf] at h; simp at h
  | none => rw [hf] at h; simp at h; rw [← h]

theorem exercise_ok_count (env : ExecEnv) (i : Nat) (s s1 : RegistryState)
    (h : exercise_option env i s = Except.ok s1) :
    s1.optionCount = s.optionCount := by
  unfold exercise_option at h
  cases hf : findRecord i s.options with
  | none => rw [hf] at h; simp at h
  | some r => rw [hf] at h; simp at h; rw [← h]

theorem applyOp_create_ok (c i k e : Nat) (s s1 : RegistryState)
    (h : create_option c i k e s = Except.ok s1) :
    applyOp s (RegOp.create c i k e) = s1 := by
  simp only [applyOp, h]

theorem applyOp_exercise_count (env : ExecEnv) (i : Nat) (s : RegistryState) :
    (applyOp s (RegOp.exercise env i)).optionCount = s.optionCount := by
  cases hf : exercise_option env i s with
  | ok s1 =>
    simp only [applyOp, hf]
    exact exercise_ok_count env i s s1 hf
  | error err => simp only [applyOp, hf]

theorem applyOp_count_ge (s : RegistryState) (op : RegOp) :
    s.optionCount ≤ (applyOp s op).optionCount := by
  cases op with
  | create c i k e =>
    cases hf : create_option c i k e s with
    | ok s1 =>
      simp only [applyOp, hf]
      rw [create_ok_count c i k e s s1 hf]
      omega
    | error err => simp only [applyOp, hf]; exact Nat.le_refl _
  | exercise env i => rw [applyOp_exercise_count]

theorem runOps_count_ge (ops : List RegOp) :
    ∀ s : RegistryState, s.optionCount ≤ (runOps s ops).optionCount := by
  induction ops with
  | nil => intro s; exact Nat.le_refl _
  | cons op rest ih =>
    intro s
    rw [runOps_cons]
    exact Nat.le_trans (applyOp_count_ge s op) (ih (applyOp s op))

theorem runOps_count_of_createsOk (ops : List RegOp) :
    ∀ s : RegistryState, createsOk s ops = true →
      (runOps s ops).optionCount = s.optionCount + numCreates ops := by
  induction ops with
  | nil => intro s _; rfl
  | cons op rest ih =>
    intro s h
    cases op with
    | create c i k e =>
      rw [createsOk] at h
      rw [Bool.and_eq_true] at h
      obtain ⟨h1, h2⟩ := h
      cases hf : create_option c i k e s with
      | error err => rw [hf] at h1; simp at h1
      | ok s1 =>
        have happ : applyOp s (RegOp.create c i k e) = s1 :=
          applyOp_create_ok c i k e s s1 hf
        rw [runOps_cons, happ]
        rw [happ] at h2
        rw [ih s1 h2, create_ok_count c i k e s s1 hf, numCreates]
        omega
    | exercise env i =>
      rw [createsOk] at h
      rw [Bool.and_eq_true] at h
      obtain ⟨_, h2⟩ := h
      rw [runOps_cons, ih _ h2, applyOp_exercise_count, numCreates]

theorem applyOp_preserves_record (s : RegistryState) (op : RegOp)
    (id : Nat) (r : OptionRecord) (hfind : findRecord id s.options = some r) :
    ∃ r', findRecord id (applyOp s op).options = some r' ∧
      r'.id = r.id ∧ r'.creator = r.creator ∧ r'.strike = r.strike ∧
      r'.expiry = r.expiry ∧ (r.exercised = true → r'.exercised = true) := by
  cases op with
  | create c i k e =>
    cases hf : findRecord i s.options with
    | some q =>
      have : applyOp s (RegOp.create c i k e) = s := by
        simp only [applyOp, create_option, hf]
      rw [this]
      exact ⟨r, hfind, rfl, rfl, rfl, rfl, fun hx => hx⟩
    | none =>
      have hne : i ≠ id := by
        intro hi
        rw [hi, hfind] at hf
        exact Option.noConfusion hf
      have : applyOp s (RegOp.create c i k e) =
          ⟨(i, ⟨i, c, k, e, false⟩) :: s.options, s.optionCount + 1⟩ := by
        simp only [applyOp, create_option, hf]
      rw [this]
      refine ⟨r, ?_, rfl, rfl, rfl, rfl, fun hx => hx⟩
      rw [findRecord_cons_ne id i _ s.options hne]
      exact hfind
  | exercise env i =>
    cases hf : findRecord i s.options with
    | none =>
      have : applyOp s (RegOp.exercise env i) = s := by
        simp only [applyOp, exercise_option, hf]
      rw [this]
      exact ⟨r, hfind, rfl, rfl, rfl, rfl, fun hx => hx⟩
    | some q =>
      have happ : applyOp s (RegOp.exercise env i) =
          { s with options := setExercised i s.options } := by
        simp only [applyOp, exercise_option, hf]
      rw [happ]
      by_cases hi : i = id
      · subst hi
        refine ⟨{ r with exercised := true },
          findRecord_setExercised_self i s.options r hfind,
          rfl, rfl, rfl, rfl, fun _ => rfl⟩
      · refine ⟨r, ?_, rfl, rfl, rfl, rfl, fun hx => hx⟩
        rw [findRecord_setExercised_ne id i (fun h => hi h.symm) s.options]
        exact hfind

theorem runOps_preserves_record (ops : List RegOp) :
    ∀ (s : RegistryState) (id : Nat) (r : OptionRecord),
      findRecord id s.options = some r →
      ∃ r', findRecord id (runOps s ops).options = some r' ∧
        r'.id = r.id ∧ r'.creator = r.creator ∧ r'.strike = r.strike ∧
        r'.expiry = r.expiry ∧ (r.exercised = true → r'.exercised = true) := by
  induction ops with
  | nil =>
    intro s id r hfind
    exact ⟨r, hfind, rfl, rfl, rfl, rfl, fun hx => hx⟩
  | cons op rest ih =>
    intro s id r hfind
    obtain ⟨r1, hfind1, hid1, hcr1, hst1, hexp1, hex1⟩ :=
      applyOp_preserves_record s op id r hfind
    obtain ⟨r2, hfind2, hid2, hcr2, hst2, hexp2, hex2⟩ :=
      ih (applyOp s op) id r1 hfind1
    rw [runOps_cons]
    exact ⟨r2, hfind2, hid2.trans hid1, hcr2.trans hcr1, hst2.trans hst1,
      hexp2.trans hexp1, fun hx => hex2 (hex1 hx)⟩

/-! ## Claim theorems: invariants over operation sequences -/

/-- C7.  Count monotonicity: `option_count` never decreases under any
sequence of entry-point invocations; every successful `create_option`
increments it by exactly one; and a sequence in which every creation
succeeds raises the count by exactly the number of creations, whatever
`exercise_option` calls are interleaved. -/
theorem option_count_monotone (s : RegistryState) (ops : List RegOp) :
    s.optionCount ≤ (runOps s ops).optionCount ∧
    (∀ c i k e s1, create_option c i k e s = Except.ok s1 →
      s1.optionCount = s.optionCount + 1) ∧
    (createsOk s ops = true →
      (runOps s ops).optionCount = s.optionCount + numCreates ops) := by
  refine ⟨runOps_count_ge ops s, ?_, runOps_count_of_createsOk ops s⟩
  intro c i k e s1 h
  exact create_ok_count c i k e s s1 h

/-- Witness for C7: two successful creations interleaved with exercise
calls (one failing, one succeeding) raise the count from 5 to 7. -/
theorem option_count_monotone_witness :
    createsOk ⟨[], 5⟩
      [RegOp.create 1 10 100 200, RegOp.exercise ⟨0, 0⟩ 77,
       RegOp.exercise ⟨0, 0⟩ 10, RegOp.create 1 11 100 200] = true ∧
    (runOps ⟨[], 5⟩
      [RegOp.create 1 10 100 200, RegOp.exercise ⟨0, 0⟩ 77,
       RegOp.exercise ⟨0, 0⟩ 10, RegOp.create 1 11 100 200]).optionCount = 7 :=
  ⟨rfl, (option_count_monotone ⟨[], 5⟩ _).2.2 rfl⟩

/-- C8.  One-way exercised flag: under every sequence of entry-point
invocations, a stored option is never removed, its immutable fields never
change, and once its `exercised` flag is `true` it stays `true` — the
flag only ever moves from `false` to `true`. -/
theorem exercised_one_way (s : RegistryState) (ops : List RegOp)
    (id : Nat) (r : OptionRecord)
    (hfind : findRecord id s.options = some r) :
    ∃ r', findRecord id (runOps s ops).options = some r' ∧
      r'.id = r.id ∧ r'.creator = r.creator ∧ r'.strike = r.strike ∧
      r'.expiry = r.expiry ∧ (r.exercised = true → r'.exercised = true) :=
  runOps_preserves_record ops s id r hfind

/-- Witness for C8: an exercised option survives a duplicate-create
attempt and a re-exercise with all fields intact. -/
theorem exercised_one_way_witness :
    ∃ r', findRecord 1
        (runOps ⟨[(1, ⟨1, 7, 100, 50, true⟩)], 3⟩
          [RegOp.create 9 1 8 8, RegOp.exercise ⟨0, 0⟩ 1]).options = some r' ∧
      r'.id = (1 : Nat) ∧ r'.creator = (7 : Nat) ∧ r'.strike = (100 : Nat) ∧
      r'.expiry = (50 : Nat) ∧ (true = true → r'.exercised = true) :=
  exercised_one_way ⟨[(1, ⟨1, 7, 100, 50, true⟩)], 3⟩
    [RegOp.create 9 1 8 8, RegOp.exercise ⟨0, 0⟩ 1] 1 ⟨1, 7, 100, 50, true⟩ rfl

/-! ## Lemmas about the decimal rendering and the storage keys -/

theorem decVal_decDigitsCore :
    ∀ fuel n : Nat, n < fuel → decVal (decDigitsCore fuel n) = n := by
  intro fuel
  induction fuel with
  | zero => intro n h; omega
  | succ fuel ih =>
    intro n h
    by_cases h10 : n < 10
    · simp [decDigitsCore, h10, decVal]
    · have hdiv : n / 10 < n := Nat.div_lt_self (by omega) (by omega)
      have : n / 10 < fuel := by omega
      simp only [decDigitsCore, if_neg h10, decVal, ih (n / 10) this]
      omega

theorem decDigitsCore_lt :
    ∀ fuel n d : Nat, d ∈ decDigitsCore fuel n → d < 10 := by
  intro fuel
  induction fuel with
  | zero => intro n d h; simp [decDigitsCore] at h
  | succ fuel ih =>
    intro n d h
    by_cases h10 : n < 10
    · simp [decDigitsCore, h10] at h
      omega
    · simp only [decDigitsCore, if_neg h10, List.mem_cons] at h
      rcases h with h | h
      · omega
      · exact ih (n / 10) d h

theorem decDigitsCore_ne_nil (fuel n : Nat) (h : fuel ≠ 0) :
    decDigitsCore fuel n ≠ [] := by
  cases fuel with
  | zero => exact absurd rfl h
  | succ fuel =>
    by_cases h10 : n < 10 <;> simp [decDigitsCore, h10]

theorem decDigits_inj (a b : Nat) (h : decDigits a = decDigits b) : a = b := by
  have ha := decVal_decDigitsCore (a + 1) a (Nat.lt_succ_self a)
  have hb := decVal_decDigitsCore (b + 1) b (Nat.lt_succ_self b)
  rw [← ha, ← hb]
  unfold decDigits at h
  rw [h]

theorem digitChar_inj_lt (a b : Nat) (ha : a < 10) (hb : b < 10)
    (h : Nat.digitChar a = Nat.digitChar b) : a = b := by
  have key : ∀ x y : Fin 10, Nat.digitChar x.val = Nat.digitChar y.val → x = y := by
    decide
  have := key ⟨a, ha⟩ ⟨b, hb⟩ h
  exact congrArg Fin.val this

theorem isDigitCh_digitChar (d : Nat) (hd : d < 10) :
    isDigitCh (Nat.digitChar d) = true := by
  have key : ∀ x : Fin 10, isDigitCh (Nat.digitChar x.val) = true := by decide
  exact key ⟨d, hd⟩

theorem map_digitChar_inj :
    ∀ l1 l2 : List Nat, (∀ d ∈ l1, d < 10) → (∀ d ∈ l2, d < 10) →
      l1.map Nat.digitChar = l2.map Nat.digitChar → l1 = l2 := by
  intro l1
  induction l1 with
  | nil =>
    intro l2 _ _ h
    cases l2 with
    | nil => rfl
    | cons c t => simp at h
  | cons c t ih =>
    intro l2 h1 h2 h
    cases l2 with
    | nil => simp at h
    | cons c2 t2 =>
      simp only [List.map_cons, List.cons.injEq] at h
      have hc : c = c2 :=
        digitChar_inj_lt c c2 (h1 c (List.mem_cons_self c t))
          (h2 c2 (List.mem_cons_self c2 t2)) h.1
      have ht : t = t2 :=
        ih t2 (fun d hd => h1 d (List.mem_cons_of_mem c hd))
          (fun d hd => h2 d (List.mem_cons_of_mem c2 hd)) h.2
      rw [hc, ht]

theorem decChars_inj (a b : Nat) (h : decChars a = decChars b) : a = b := by
  unfold decChars at h
  have hrev : (decDigits a).reverse = (decDigits b).reverse :=
    map_digitChar_inj _ _
      (fun d hd => decDigitsCore_lt (a + 1) a d (List.mem_reverse.mp hd))
      (fun d hd => decDigitsCore_lt (b + 1) b d (List.mem_reverse.mp hd)) h
  exact decDigits_inj a b (List.reverse_inj.mp hrev)

theorem decChars_digit (n : Nat) : ∀ c ∈ decChars n, isDigitCh c = true := by
  intro c hc
  unfold decChars at hc
  obtain ⟨d, hd, rfl⟩ := List.mem_map.mp hc
  exact isDigitCh_digitChar d (decDigitsCore_lt (n + 1) n d (List.mem_reverse.mp hd))

theorem decChars_ne_nil (n : Nat) : decChars n ≠ [] := by
  unfold decChars
  intro h
  rw [List.map_eq_nil_iff, List.reverse_eq_nil_iff] at h
  exact decDigitsCore_ne_nil (n + 1) n (Nat.succ_ne_zero n) h

theorem digitRun_append_inj :
    ∀ l1 l2 s1 s2 : List Char,
      (∀ c ∈ l1, isDigitCh c = true) → (∀ c ∈ l2, isDigitCh c = true) →
      underscoreHeaded s1 = true → underscoreHeaded s2 = true →
      l1 ++ s1 = l2 ++ s2 → l1 = l2 ∧ s1 = s2 := by
  intro l1
  induction l1 with
  | nil =>
    intro l2 s1 s2 _ h2 hu1 _ h
    cases l2 with
    | nil => exact ⟨rfl, h⟩
    | cons c t =>
      exfalso
      simp only [List.nil_append, List.cons_append] at h
      rw [h] at hu1
      simp only [underscoreHeaded, beq_iff_eq] at hu1
      have := h2 c (List.mem_cons_self c t)
      rw [hu1] at this
      simp [isDigitCh] at this
  | cons c t ih =>
    intro l2 s1 s2 h1 h2 hu1 hu2 h
    cases l2 with
    | nil =>
      exfalso
      simp only [List.nil_append, List.cons_append] at h
      rw [← h] at hu2
      simp only [underscoreHeaded, beq_iff_eq] at hu2
      have := h1 c (List.mem_cons_self c t)
      rw [hu2] at this
      simp [isDigitCh] at this
    | cons c2 t2 =>
      simp only [List.cons_append, List.cons.injEq] at h
      obtain ⟨hc, hrest⟩ := h
      obtain ⟨hts, hss⟩ := ih t2 s1 s2
        (fun x hx => h1 x (List.mem_cons_of_mem c hx))
        (fun x hx => h2 x (List.mem_cons_of_mem c2 hx)) hu1 hu2 hrest
      exact ⟨by rw [hc, hts], hss⟩

theorem key_split (a b : Nat) (s1 s2 : List Char)
    (h1 : underscoreHeaded s1 = true) (h2 : underscoreHeaded s2 = true)
    (h : "option_".data ++ (decChars a ++ s1) =
         "option_".data ++ (decChars b ++ s2)) : a = b ∧ s1 = s2 := by
  have h' := List.append_cancel_left h
  obtain ⟨hl, hs⟩ := digitRun_append_inj (decChars a) (decChars b) s1 s2
    (decChars_digit a) (decChars_digit b) h1 h2 h'
  exact ⟨decChars_inj a b hl, hs⟩

theorem optionKey_data (id : Nat) :
    (optionKey id).data = "option_".data ++ (decChars id ++ []) := by
  show "option_".data ++ decChars id = _
  rw [List.append_nil]

theorem optionCreatorKey_data (id : Nat) :
    (optionCreatorKey id).data =
      "option_".data ++ (decChars id ++ "_creator".data) := by
  show ("option_".data ++ decChars id) ++ "_creator".data = _
  rw [List.append_assoc]

theorem optionStrikeKey_data (id : Nat) :
    (optionStrikeKey id).data =
      "option_".data ++ (decChars id ++ "_strike".data) := by
  show ("option_".data ++ decChars id) ++ "_strike".data = _
  rw [List.append_assoc]

theorem optionExpiryKey_data (id : Nat) :
    (optionExpiryKey id).data =
      "option_".data ++ (decChars id ++ "_expiry".data) := by
  show ("option_".data ++ decChars id) ++ "_expiry".data = _
  rw [List.append_assoc]

theorem optionExercisedKey_data (id : Nat) :
    (optionExercisedKey id).data =
      "option_".data ++ (decChars id ++ "_exercised".data) := by
  show ("option_".data ++ decChars id) ++ "_exercised".data = _
  rw [List.append_assoc]

theorem optionKeys_data (id : Nat) :
    ∀ k ∈ optionKeys id, ∃ s : List Char,
      underscoreHeaded s = true ∧
      k.data = "option_".data ++ (decChars id ++ s) := by
  intro k hk
  simp only [optionKeys, List.mem_cons, List.not_mem_nil, or_false] at hk
  rcases hk with rfl | rfl | rfl | rfl | rfl
  · exact ⟨[], rfl, optionKey_data id⟩
  · exact ⟨"_creator".data, rfl, optionCreatorKey_data id⟩
  · exact ⟨"_strike".data, rfl, optionStrikeKey_data id⟩
  · exact ⟨"_expiry".data, rfl, optionExpiryKey_data id⟩
  · exact ⟨"_exercised".data, rfl, optionExercisedKey_data id⟩

theorem keys_ne_of_parts (a b : Nat) (k1 k2 : String) (s1 s2 : List Char)
    (e1 : k1.data = "option_".data ++ (decChars a ++ s1))
    (e2 : k2.data = "option_".data ++ (decChars b ++ s2))
    (h1 : underscoreHeaded s1 = true) (h2 : underscoreHeaded s2 = true)
    (hab : a ≠ b) : k1 ≠ k2 := by
  intro h
  apply hab
  have hd := congrArg String.data h
  rw [e1, e2] at hd
  exact (key_split a b s1 s2 h1 h2 hd).1

theorem key_ne_countKey (a : Nat) (k : String) (s : List Char)
    (e : k.data = "option_".data ++ (decChars a ++ s)) :
    k ≠ optionCountKey := by
  intro h
  have hd := congrArg String.data h
  rw [e] at hd
  have hd' : "option_".data ++ (decChars a ++ s) =
      "option_".data ++ "count".data := hd
  have h2 := List.append_cancel_left hd'
  cases hc : decChars a with
  | nil => exact decChars_ne_nil a hc
  | cons c0 t =>
    rw [hc, List.cons_append] at h2
    have hc0 : c0 = 'c' := (List.cons.injEq _ _ _ _ ▸ h2).1
    have hdig := decChars_digit a c0 (hc ▸ List.mem_cons_self c0 t)
    rw [hc0] at hdig
    simp [isDigitCh] at hdig

/-! ## Claim theorem: storage-key uniqueness -/

/-- C9.  Storage key uniqueness: for any two distinct u64 option ids
(0 and the maximum value included), none of the five storage keys derived
from one id coincides with any of the five keys derived from the other,
and none of them coincides with the `option_count` key. -/
theorem storage_key_uniqueness (A B : Nat) (hA : A < 2 ^ 64) (hB : B < 2 ^ 64)
    (hAB : A ≠ B) :
    (∀ k1 ∈ optionKeys A, ∀ k2 ∈ optionKeys B, k1 ≠ k2) ∧
    (∀ k ∈ optionKeys A, k ≠ optionCountKey) := by
  constructor
  · intro k1 hk1 k2 hk2
    obtain ⟨s1, hu1, e1⟩ := optionKeys_data A k1 hk1
    obtain ⟨s2, hu2, e2⟩ := optionKeys_data B k2 hk2
    exact keys_ne_of_parts A B k1 k2 s1 s2 e1 e2 hu1 hu2 hAB
  · intro k hk
    obtain ⟨s, _, e⟩ := optionKeys_data A k hk
    exact key_ne_countKey A k s e

/-- Witness for C9 at the extreme ids 0 and the maximum u64 value. -/
theorem storage_key_uniqueness_witness :
    optionKey 0 ≠ optionKey (2 ^ 64 - 1) ∧
    optionExercisedKey 0 ≠ optionCreatorKey (2 ^ 64 - 1) ∧
    optionKey 0 ≠ optionCountKey := by
  have h := storage_key_uniqueness 0 (2 ^ 64 - 1) (by norm_num) (by norm_num)
    (by norm_num)
  refine ⟨?_, ?_, ?_⟩
  · exact h.1 (optionKey 0) (by simp [optionKeys])
      (optionKey (2 ^ 64 - 1)) (by simp [optionKeys])
  · exact h.1 (optionExercisedKey 0) (by simp [optionKeys])
      (optionCreatorKey (2 ^ 64 - 1)) (by simp [optionKeys])
  · exact h.2 (optionKey 0) (by simp [optionKeys])

/-! ## Claim theorem: client-side premium -/

/-- C10.  Premium floor and formula: `calculatePremium strikePrice`
returns `max (strikePrice * 0.05) 0.01`, is therefore always at least
0.01, is monotone non-decreasing in the strike price, and is exactly the
premium attached to every option object built by the client's
`createOption`. -/
theorem calculatePremium_formula (p q : ℚ) (hpq : p ≤ q) :
    calculatePremium p = max (p * (5 / 100)) (1 / 100) ∧
    (1 / 100 : ℚ) ≤ calculatePremium p ∧
    calculatePremium p ≤ calculatePremium q ∧
    ∀ (id expiry : Nat) (amount : ℚ) (creator : Nat),
      (newClientOption id p expiry amount creator).premium = calculatePremium p := by
  refine ⟨rfl, le_max_right _ _, ?_, fun _ _ _ _ => rfl⟩
  exact max_le_max
    (mul_le_mul_of_nonneg_right hpq (by norm_num [PREMIUM_PERCENTAGE])) le_rfl

/-- Witness for C10 at strike prices 1 and 2. -/
theorem calculatePremium_formula_witness :
    (1 : ℚ) ≤ 2 ∧ calculatePremium 1 ≤ calculatePremium 2 ∧
    (1 / 100 : ℚ) ≤ calculatePremium 1 :=
  ⟨by norm_num, (calculatePremium_formula 1 2 (by norm_num)).2.2.1,
   (calculatePremium_formula 1 2 (by norm_num)).2.1⟩

end CasperOptions
